import Mathlib

/-!
Shallow embedding of the `niqqud` Rust library (src/lib.rs).

Text is modelled as a list of Unicode scalar values (`List Nat`); each
element of a valid input lies below 0x110000 and outside the surrogate
range. The Rust functions `remove` and `remove_thorough` iterate over the
`char`s of a `&str` and `filter`/`collect`, which corresponds exactly to
`List.filter` over the scalar-value sequence.
-/

namespace Niqqud

/-- A Unicode scalar value: a codepoint below 0x110000 that is not a
UTF-16 surrogate. This is the set of values a Rust `char` can hold. -/
def ValidScalar (c : Nat) : Prop :=
  c < 0x110000 ∧ ¬(0xD800 ≤ c ∧ c ≤ 0xDFFF)

instance (c : Nat) : Decidable (ValidScalar c) := by
  unfold ValidScalar; infer_instance

/-- Embeds `fn is_diacritic(c: char) -> bool`:
`matches!(c, '\u{0590}'..='\u{05CF}')`. -/
def is_diacritic (c : Nat) : Bool :=
  0x0590 ≤ c && c ≤ 0x05CF

/-- Embeds `fn is_special(c: char) -> bool`:
`matches!(c, '\u{05EB}'..='\u{05FF}')`. -/
def is_special (c : Nat) : Bool :=
  0x05EB ≤ c && c ≤ 0x05FF

/-- Embeds `pub fn remove(string: &str) -> Cow<str>`:
`string.chars().filter(|&c| !is_diacritic(c)).collect()`. -/
def remove (string : List Nat) : List Nat :=
  string.filter (fun c => !is_diacritic c)

/-- Embeds `pub fn remove_thorough(string: &str) -> Cow<str>`:
`string.chars().filter(|&c| !is_diacritic(c) && !is_special(c)).collect()`. -/
def remove_thorough (string : List Nat) : List Nat :=
  string.filter (fun c => !is_diacritic c && !is_special c)

/-- The spec's words for `remove` (C1): exactly the codepoints whose
scalar value lies outside the inclusive range [U+0590, U+05CF], in the
original relative order. -/
def removeSpec (t : List Nat) : List Nat :=
  t.filter (fun c => decide (¬(0x0590 ≤ c ∧ c ≤ 0x05CF)))

/-- The spec's words for `remove_thorough` (C2): exactly the codepoints
whose scalar value lies outside both inclusive ranges [U+0590, U+05CF]
and [U+05EB, U+05FF], in the original relative order. -/
def removeThoroughSpec (t : List Nat) : List Nat :=
  t.filter (fun c =>
    decide (¬(0x0590 ≤ c ∧ c ≤ 0x05CF) ∧ ¬(0x05EB ≤ c ∧ c ≤ 0x05FF)))

/-- Scalar values of the test string "״שָׁלוֹם עוֹלָם״" (gershayim-quoted,
with niqqud). -/
def diacritedQuoted : List Nat :=
  [0x5F4, 0x5E9, 0x5B8, 0x5C1, 0x5DC, 0x5D5, 0x5B9, 0x5DD, 0x20,
   0x5E2, 0x5D5, 0x5B9, 0x5DC, 0x5B8, 0x5DD, 0x5F4]

/-- Scalar values of "״שלום עולם״" (quotes preserved, niqqud stripped). -/
def quotedResult : List Nat :=
  [0x5F4, 0x5E9, 0x5DC, 0x5D5, 0x5DD, 0x20, 0x5E2, 0x5D5, 0x5DC, 0x5DD, 0x5F4]

/-- Scalar values of "שלום עולם" (quotes and niqqud both stripped). -/
def unquotedResult : List Nat :=
  [0x5E9, 0x5DC, 0x5D5, 0x5DD, 0x20, 0x5E2, 0x5D5, 0x5DC, 0x5DD]

lemma is_diacritic_iff (c : Nat) :
    is_diacritic c = true ↔ 0x0590 ≤ c ∧ c ≤ 0x05CF := by
  simp [is_diacritic]

lemma is_special_iff (c : Nat) :
    is_special c = true ↔ 0x05EB ≤ c ∧ c ≤ 0x05FF := by
  simp [is_special]

lemma remove_pred_eq :
    (fun c => !is_diacritic c) =
      (fun c => decide (¬(0x0590 ≤ c ∧ c ≤ 0x05CF))) := by
  funext c
  by_cases h1 : 0x0590 ≤ c <;> by_cases h2 : c ≤ 0x05CF <;>
    simp [is_diacritic, h1, h2]

lemma remove_thorough_pred_eq :
    (fun c => !is_diacritic c && !is_special c) =
      (fun c =>
        decide (¬(0x0590 ≤ c ∧ c ≤ 0x05CF) ∧ ¬(0x05EB ≤ c ∧ c ≤ 0x05FF))) := by
  funext c
  by_cases h1 : 0x0590 ≤ c <;> by_cases h2 : c ≤ 0x05CF <;>
    by_cases h3 : 0x05EB ≤ c <;> by_cases h4 : c ≤ 0x05FF <;>
      simp [is_diacritic, is_special, h1, h2, h3, h4]

/-- C1: `remove t` is exactly the codepoints of `t` whose scalar value
lies outside the inclusive range [U+0590, U+05CF], in the original
relative order, with no other transformation. -/
theorem remove_eq_spec (t : List Nat) : remove t = removeSpec t := by
  unfold remove removeSpec
  rw [remove_pred_eq]

/-- C2: `remove_thorough t` is exactly the codepoints of `t` whose scalar
value lies outside both inclusive ranges [U+0590, U+05CF] and
[U+05EB, U+05FF], in the original relative order. -/
theorem remove_thorough_eq_spec (t : List Nat) :
    remove_thorough t = removeThoroughSpec t := by
  unfold remove_thorough removeThoroughSpec
  rw [remove_thorough_pred_eq]

/-- C3 counterexample: the claim says `is_special` returns true for sof
pasuq; but sof pasuq is U+05C3, which lies below U+05EB, so
`is_special 0x5C3 = false`. -/
theorem is_special_sof_pasuq_false : is_special 0x5C3 = false := by
  decide

/-- C3 (amended): `is_special c` is true exactly when `c` lies in the
inclusive range [U+05EB, U+05FF]; in particular it is true for gershayim
(U+05F4) and geresh (U+05F3), while sof pasuq (U+05C3) lies outside the
range and `is_special` returns false for it. -/
theorem is_special_range_characterization :
    (∀ c : Nat, is_special c = true ↔ 0x05EB ≤ c ∧ c ≤ 0x05FF) ∧
      is_special 0x5F4 = true ∧ is_special 0x5F3 = true ∧
      is_special 0x5C3 = false :=
  ⟨is_special_iff, by decide, by decide, by decide⟩

/-- C4: `remove_thorough t` is a subsequence of `remove t`: every
codepoint `remove` drops, `remove_thorough` drops as well, and the
survivors of `remove_thorough` occur in order within `remove t`. -/
theorem remove_thorough_sublist_remove (t : List Nat) :
    (remove_thorough t).Sublist (remove t) ∧
      ∀ c : Nat, is_diacritic c = true →
        (!is_diacritic c && !is_special c) = false := by
  constructor
  · have h : remove_thorough t = (remove t).filter (fun c => !is_special c) := by
      unfold remove remove_thorough
      rw [List.filter_filter]
      congr 1
      funext c
      exact Bool.and_comm _ _
    rw [h]
    exact List.filter_sublist _
  · intro c hc
    simp [hc]

/-- C5: both operations are idempotent:
`remove (remove t) = remove t` and
`remove_thorough (remove_thorough t) = remove_thorough t`. -/
theorem remove_idempotent (t : List Nat) :
    remove (remove t) = remove t ∧
      remove_thorough (remove_thorough t) = remove_thorough t := by
  constructor
  · unfold remove
    rw [List.filter_eq_self]
    intro c hc
    exact (List.mem_filter.mp hc).2
  · unfold remove_thorough
    rw [List.filter_eq_self]
    intro c hc
    exact (List.mem_filter.mp hc).2

/-- C6: for both operations the output is a (possibly improper)
subsequence of the input: codepoints are only ever dropped, never added,
reordered, or transformed. -/
theorem output_sublist_input (t : List Nat) :
    (remove t).Sublist t ∧ (remove_thorough t).Sublist t :=
  ⟨List.filter_sublist t, List.filter_sublist t⟩

/-- C7: edge cases: empty input yields empty output for both operations;
an input with no codepoint in [U+0590, U+05CF] is returned unchanged by
`remove`; an input consisting entirely of such codepoints yields the
empty result. -/
theorem remove_edge_cases (t u : List Nat)
    (ht : ∀ c ∈ t, ¬(0x0590 ≤ c ∧ c ≤ 0x05CF))
    (hu : ∀ c ∈ u, 0x0590 ≤ c ∧ c ≤ 0x05CF) :
    remove ([] : List Nat) = [] ∧ remove_thorough ([] : List Nat) = [] ∧
      remove t = t ∧ remove u = [] := by
  refine ⟨rfl, rfl, ?_, ?_⟩
  · unfold remove
    rw [List.filter_eq_self]
    intro c hc
    have := ht c hc
    simp [is_diacritic]
    omega
  · unfold remove
    rw [List.filter_eq_nil_iff]
    intro c hc
    have := hu c hc
    simp [is_diacritic]
    omega

/-- Witness for C7 at concrete inputs: `t = [0x41, 0x5D0]` (no diacritic),
`u = [0x5B0, 0x5C1]` (all diacritics). -/
theorem remove_edge_cases_witness :
    (∀ c ∈ [0x41, 0x5D0], ¬(0x0590 ≤ c ∧ c ≤ 0x05CF)) ∧
      (∀ c ∈ [0x5B0, 0x5C1], 0x0590 ≤ c ∧ c ≤ 0x05CF) ∧
      (remove ([] : List Nat) = [] ∧ remove_thorough ([] : List Nat) = [] ∧
        remove [0x41, 0x5D0] = [0x41, 0x5D0] ∧ remove [0x5B0, 0x5C1] = []) :=
  ⟨by decide, by decide,
    remove_edge_cases [0x41, 0x5D0] [0x5B0, 0x5C1] (by decide) (by decide)⟩

/-- C8: on the scalar values of "״שָׁלוֹם עוֹלָם״", `remove` yields the scalar
values of "״שלום עולם״" (gershayim quotes preserved) and `remove_thorough`
yields those of "שלום עולם" (quotes removed). -/
theorem concrete_shalom_olam :
    remove diacritedQuoted = quotedResult ∧
      remove_thorough diacritedQuoted = unquotedResult := by
  decide

/-- C9: both operations are total over all sequences of valid Unicode
scalar values: on any such input each returns a (unique) result, and the
result is again a sequence of valid scalar values — no error branch
exists. -/
theorem remove_total (t : List Nat) (h : ∀ c ∈ t, ValidScalar c) :
    (∃! r : List Nat, remove t = r ∧ ∀ c ∈ r, ValidScalar c) ∧
      (∃! r : List Nat, remove_thorough t = r ∧ ∀ c ∈ r, ValidScalar c) := by
  constructor
  · refine ⟨remove t, ⟨rfl, ?_⟩, ?_⟩
    · intro c hc
      exact h c ((List.filter_sublist t).subset hc)
    · rintro r ⟨hr, -⟩
      exact hr.symm
  · refine ⟨remove_thorough t, ⟨rfl, ?_⟩, ?_⟩
    · intro c hc
      exact h c ((List.filter_sublist t).subset hc)
    · rintro r ⟨hr, -⟩
      exact hr.symm

/-- Witness for C9 at the concrete input `[0x5D0, 0x5B0, 0x20]`. -/
theorem remove_total_witness :
    (∀ c ∈ [0x5D0, 0x5B0, 0x20], ValidScalar c) ∧
      ((∃! r : List Nat, remove [0x5D0, 0x5B0, 0x20] = r ∧
          ∀ c ∈ r, ValidScalar c) ∧
        (∃! r : List Nat, remove_thorough [0x5D0, 0x5B0, 0x20] = r ∧
          ∀ c ∈ r, ValidScalar c)) :=
  ⟨by decide, remove_total [0x5D0, 0x5B0, 0x20] (by decide)⟩

/-- C10: both operations are homomorphisms with respect to concatenation:
`remove (s ++ t) = remove s ++ remove t` and likewise for
`remove_thorough`. -/
theorem remove_append (s t : List Nat) :
    remove (s ++ t) = remove s ++ remove t ∧
      remove_thorough (s ++ t) = remove_thorough s ++ remove_thorough t :=
  ⟨List.filter_append .., List.filter_append ..⟩

end Niqqud
